import Mathlib

/-!
Shallow embedding of the Polymarket alert service core
(`src/polymarket-alert-workflow.ts`): the evaluation engine
(`executeWorkflow`, `checkAlertCondition`) and the natural-language
condition parser (`parseAlertRequest`, `extractPercentage`,
`detectDirection`, `detectOutcome`, `parseMultiConditionAlert`).

Modelling conventions:
- JavaScript numbers are modelled as exact rationals (the values handled by
  the engine and the parser are small decimals, for which IEEE doubles behave
  like exact decimal arithmetic in every comparison made by the code);
- `Date.now()` timestamps are naturals (milliseconds);
- the two I/O capabilities (market fetch via `fetchMarketData`, webhook
  delivery via `sendAlert`) are explicit environment functions, so that one
  evaluation pass becomes a pure state transition;
- the engine loop is instrumented with an event trace recording each market
  fetch and each notifier invocation, in program order.
-/

namespace Spec

/-! ### Basic string helpers (JS semantics) -/

/-- Decimal digit character test, `[0-9]` of JS regexes. -/
def isDigitCh (c : Char) : Bool := '0' ≤ c && c ≤ '9'

/-- Word character test, `\w` of JS regexes: `[A-Za-z0-9_]`. -/
def isWordCh (c : Char) : Bool :=
  ('a' ≤ c && c ≤ 'z') || ('A' ≤ c && c ≤ 'Z') || isDigitCh c || c == '_'

/-- Whitespace test, `\s` of JS regexes (ASCII range; the inputs considered
here contain no exotic Unicode whitespace). -/
def isSpaceCh (c : Char) : Bool :=
  c == ' ' || c == '\t' || c == '\n' || c == '\r' || c == '\x0b' || c == '\x0c'

/-- Lowercasing a character list, modelling `String.prototype.toLowerCase` on
the ASCII inputs of this development. -/
def lowerList (l : List Char) : List Char := l.map Char.toLower

/-- Lowercasing a string, modelling `text.toLowerCase()`. -/
def jsToLower (s : String) : String := String.mk (lowerList s.data)

/-- Exact prefix test on character lists. -/
def startsWithChars : List Char → List Char → Bool
  | _, [] => true
  | [], _ :: _ => false
  | h :: hs, n :: ns => h == n && startsWithChars hs ns

/-- Substring test on character lists, modelling `String.prototype.includes`
for a non-empty needle. -/
def containsChars : List Char → List Char → Bool
  | [], n => n.isEmpty
  | h :: t, n => startsWithChars (h :: t) n || containsChars t n

/-- Substring test on strings, modelling `haystack.includes(needle)`. -/
def jsIncludes (hay needle : String) : Bool := containsChars hay.data needle.data

/-- Digit character for a value below ten. -/
def digitChar (n : Nat) : Char :=
  if n = 0 then '0' else if n = 1 then '1' else if n = 2 then '2'
  else if n = 3 then '3' else if n = 4 then '4' else if n = 5 then '5'
  else if n = 6 then '6' else if n = 7 then '7' else if n = 8 then '8' else '9'

/-- Decimal digits of a natural number, most significant first (fuelled). -/
def natDigitsAux : Nat → Nat → List Char
  | 0, _ => []
  | f + 1, n => if n = 0 then [] else natDigitsAux f (n / 10) ++ [digitChar (n % 10)]

/-- Decimal rendering of a natural number. -/
def natToString (n : Nat) : String :=
  if n = 0 then "0" else String.mk (natDigitsAux (n + 1) n)

/-- Smallest exponent `e` with `den ∣ 10 ^ e`, searched up to 18 digits. -/
def decDigitsFor (den : Nat) : Option Nat :=
  (List.range 18).find? (fun e => 10 ^ e % den = 0)

/-- String of `n` copies of a character. -/
def repeatChar (n : Nat) (c : Char) : String := String.mk (List.replicate n c)

/-- Rendering of a rational as JS renders the corresponding number in a
template literal: integers without a decimal point, other terminating
decimals with their shortest exact expansion. (All values interpolated into
alert keys by this code base are exact decimals.) -/
def ratToDecimalString (q : ℚ) : String :=
  let sign := if q.num < 0 then "-" else ""
  let n := q.num.natAbs
  let d := q.den
  match decDigitsFor d with
  | some 0 => sign ++ natToString n
  | some e =>
    let scaled := n * (10 ^ e / d)
    let frac := natToString (scaled % 10 ^ e)
    sign ++ natToString (scaled / 10 ^ e) ++ "." ++
      repeatChar (e - frac.length) '0' ++ frac
  | none => sign ++ natToString n ++ "/" ++ natToString d

/-- Rendering with one fractional digit, modelling `Number.prototype.toFixed(1)`
on the non-negative prices handled here: `⌊q * 10 + 1 / 2⌋` (round to nearest,
half up) computed on numerator and denominator directly. -/
def toFixed1 (q : ℚ) : String :=
  let n : Nat := (20 * q.num.toNat + q.den) / (2 * q.den)
  natToString (n / 10) ++ "." ++ natToString (n % 10)

/-- Multiplication of rationals, defined through `mkRat` so that it reduces in
the kernel (`Rat.mul` is irreducible); `jsMul_eq` identifies it with `*`. -/
def jsMul (a b : ℚ) : ℚ := mkRat (a.num * b.num) (a.den * b.den)

theorem jsMul_eq (a b : ℚ) : jsMul a b = a * b := by
  rw [jsMul, ← Rat.mkRat_mul_mkRat, Rat.mkRat_self, Rat.mkRat_self]

/-! ### Data model (`polymarket-alert-workflow.ts` interfaces) -/

/-- Comparison direction of an alert condition, the `'above' | 'below'` union. -/
inductive Direction where
  | above
  | below
deriving DecidableEq

/-- Rendering of a `Direction` as the string it is in the source. -/
def dirToString : Direction → String
  | .above => "above"
  | .below => "below"

/-- One outcome token of a market (`PolymarketToken`); `price` is on the
external 0.0–1.0 scale. -/
structure PolymarketToken where
  token_id : String
  outcome : String
  price : ℚ
deriving DecidableEq

/-- A market snapshot (`PolymarketMarket`). -/
structure PolymarketMarket where
  condition_id : String
  question : String
  tokens : List PolymarketToken
  active : Bool
  closed : Bool
deriving DecidableEq

/-- An alert condition (`AlertConfig`); `threshold` is on the 0–100 scale. -/
structure AlertConfig where
  marketId : String
  outcome : String
  threshold : ℚ
  direction : Direction
  notifyUrl : String
deriving DecidableEq

/-- The engine state (`WorkflowState`): active conditions, per-market
last-poll timestamps, and the keys already notified. `lastChecked` is an
association list modelling the JS record (`marketId -> timestamp`). -/
structure WorkflowState where
  alertConfigs : List AlertConfig
  lastChecked : List (String × Nat)
  triggeredAlerts : List String
deriving DecidableEq

/-- Lookup in `lastChecked`, modelling `state.lastChecked[marketId] || 0`
(an absent key reads as `0`; a stored `0` is falsy and also reads as `0`). -/
def lookupChecked : List (String × Nat) → String → Nat
  | [], _ => 0
  | p :: rest, k => if p.1 = k then p.2 else lookupChecked rest k

/-- Update of `lastChecked`, modelling `state.lastChecked[marketId] = now`. -/
def setChecked : List (String × Nat) → String → Nat → List (String × Nat)
  | [], k, v => [(k, v)]
  | p :: rest, k, v => if p.1 = k then (k, v) :: rest else p :: setChecked rest k v

/-- The deduplication key of a condition, modelling the template literal
`` `${config.marketId}-${config.outcome}-${config.threshold}-${config.direction}` ``. -/
def alertKey (config : AlertConfig) : String :=
  config.marketId ++ "-" ++ config.outcome ++ "-" ++
    ratToDecimalString config.threshold ++ "-" ++ dirToString config.direction

/-- Token lookup by case-insensitive outcome label, modelling
`market.tokens.find(t => t.outcome.toLowerCase() === config.outcome.toLowerCase())`. -/
def findToken (market : PolymarketMarket) (outcome : String) : Option PolymarketToken :=
  market.tokens.find? (fun t => jsToLower t.outcome == jsToLower outcome)

/-- Condition evaluation (`checkAlertCondition`): the token's price is scaled
to a percentage and compared inclusively against the threshold. -/
def checkAlertCondition (market : PolymarketMarket) (config : AlertConfig) : Bool :=
  match findToken market config.outcome with
  | none => false
  | some token =>
    let currentPrice := jsMul token.price 100
    match config.direction with
    | .above => decide (config.threshold ≤ currentPrice)
    | .below => decide (currentPrice ≤ config.threshold)

/-- The fired-alert description pushed by `executeWorkflow`:
`` `Alert triggered: ${market.question} - ${config.outcome} at ${currentPrice.toFixed(1)}%` ``. -/
def alertMessage (market : PolymarketMarket) (config : AlertConfig) (currentPrice : ℚ) : String :=
  "Alert triggered: " ++ market.question ++ " - " ++ config.outcome ++ " at " ++
    toFixed1 currentPrice ++ "%"

/-- The I/O capabilities consumed by one pass: the market data source
(`fetchMarketData`, `null` becomes `none`) and the scripted verdict of the
webhook notifier (`sendAlert` returns `response.ok`). -/
structure WfEnv where
  fetchMarketData : String → Option PolymarketMarket
  sendAlertOk : AlertConfig → PolymarketMarket → ℚ → Bool

/-- Instrumentation events of a pass: a market fetch attempt (tagged with the
marketId fetched and the key of the condition that caused it), and a notifier
invocation with its success flag. -/
inductive WfEvent where
  | fetch (marketId : String) (key : String)
  | notify (marketId : String) (key : String) (success : Bool)
deriving DecidableEq

/-- One iteration of the `for (const config of state.alertConfigs)` loop body
of `executeWorkflow`: skip if already triggered; skip if the market was polled
less than 60000 ms ago; otherwise record the poll timestamp, fetch, and when
the condition is met invoke the notifier, recording the key and the
description only on notifier success. Returns the updated state together with
the descriptions and events this iteration produced. (The truncated `Nat`
subtraction in the rate check agrees with the JS signed comparison
`now - lastChecked < 60000` in every case: when the stored timestamp exceeds
`now`, both sides skip.) -/
def processConfig (env : WfEnv) (now : Nat) (st : WorkflowState) (config : AlertConfig) :
    WorkflowState × List String × List WfEvent :=
  let key := alertKey config
  if st.triggeredAlerts.contains key then (st, [], [])
  else if now - lookupChecked st.lastChecked config.marketId < 60000 then (st, [], [])
  else
    let st1 : WorkflowState := { st with lastChecked := setChecked st.lastChecked config.marketId now }
    let fetchEv := WfEvent.fetch config.marketId key
    match env.fetchMarketData config.marketId with
    | none => (st1, [], [fetchEv])
    | some market =>
      if !market.active || market.closed then (st1, [], [fetchEv])
      else if checkAlertCondition market config then
        let currentPrice := jsMul (match findToken market config.outcome with
                                   | some t => t.price
                                   | none => 0) 100
        if env.sendAlertOk config market currentPrice then
          ({ st1 with triggeredAlerts := st1.triggeredAlerts ++ [key] },
           [alertMessage market config currentPrice],
           [fetchEv, WfEvent.notify config.marketId key true])
        else (st1, [], [fetchEv, WfEvent.notify config.marketId key false])
      else (st1, [], [fetchEv])

/-- The loop of `executeWorkflow`, threading the mutable state through the
iterations and concatenating the produced descriptions and events. -/
def runConfigs (env : WfEnv) (now : Nat) :
    List AlertConfig → WorkflowState → WorkflowState × List String × List WfEvent
  | [], st => (st, [], [])
  | c :: cs, st =>
    let r1 := processConfig env now st c
    let r2 := runConfigs env now cs r1.1
    (r2.1, r1.2.1 ++ r2.2.1, r1.2.2 ++ r2.2.2)

/-- One evaluation pass (`executeWorkflow`) with its instrumentation trace. -/
def executeWorkflowT (env : WfEnv) (now : Nat) (state : WorkflowState) :
    WorkflowState × List String × List WfEvent :=
  runConfigs env now state.alertConfigs state

/-- One evaluation pass (`executeWorkflow`): the returned `{ state, alerts }`. -/
def executeWorkflow (env : WfEnv) (now : Nat) (state : WorkflowState) :
    WorkflowState × List String :=
  ((executeWorkflowT env now state).1, (executeWorkflowT env now state).2.1)

/-- A sequence of scheduled passes, each with its own environment and clock
reading, with the concatenated instrumentation trace. -/
def runPasses : List (WfEnv × Nat) → WorkflowState → WorkflowState × List WfEvent
  | [], s => (s, [])
  | p :: ps, s =>
    let r := executeWorkflowT p.1 p.2 s
    let rest := runPasses ps r.1
    (rest.1, r.2.2 ++ rest.2)

/-! ### Trace observations -/

/-- Keys of the successful notifier invocations of a trace, in order. -/
def successKeys (tr : List WfEvent) : List String :=
  tr.filterMap (fun e => match e with | .notify _ k true => some k | _ => none)

/-- Number of successful notifier invocations for a given key. -/
def countNotifySuccess (key : String) (tr : List WfEvent) : Nat :=
  tr.countP (fun e => match e with | .notify _ k true => k == key | _ => false)

/-- The condition key an event is attributed to. -/
def eventKey : WfEvent → String
  | .fetch _ k => k
  | .notify _ k _ => k

/-- Number of events (fetch attempts or notifier invocations) attributed to a
given condition key. -/
def countEventsForKey (key : String) (tr : List WfEvent) : Nat :=
  tr.countP (fun e => eventKey e == key)

/-- Number of fetch attempts for a given marketId. -/
def countFetchMkt (m : String) (tr : List WfEvent) : Nat :=
  tr.countP (fun e => match e with | .fetch m2 _ => m2 == m | _ => false)

/-- Number of notifier invocations for conditions on a given marketId. -/
def countNotifyMkt (m : String) (tr : List WfEvent) : Nat :=
  tr.countP (fun e => match e with | .notify m2 _ _ => m2 == m | _ => false)

/-- The marketId an event is attributed to. -/
def eventMarket : WfEvent → String
  | .fetch m _ => m
  | .notify m _ _ => m

/-! ### Association list lemmas -/

theorem lookupChecked_setChecked_self (m : List (String × Nat)) (k : String) (v : Nat) :
    lookupChecked (setChecked m k v) k = v := by
  induction m with
  | nil => simp [setChecked, lookupChecked]
  | cons p rest ih =>
    by_cases h : p.1 = k
    · simp [setChecked, lookupChecked, h]
    · simp [setChecked, lookupChecked, h, ih]

theorem lookupChecked_setChecked_ne (m : List (String × Nat)) (k k' : String) (v : Nat)
    (h : k' ≠ k) : lookupChecked (setChecked m k v) k' = lookupChecked m k' := by
  induction m with
  | nil => simp [setChecked, lookupChecked, Ne.symm h]
  | cons p rest ih =>
    by_cases hp : p.1 = k
    · simp [setChecked, lookupChecked, hp, Ne.symm h]
    · simp [setChecked, lookupChecked, hp, ih]

/-! ### Per-config case analysis of the loop body -/

theorem processConfig_fired (env : WfEnv) (now : Nat) (st : WorkflowState) (c : AlertConfig)
    (h : alertKey c ∈ st.triggeredAlerts) :
    processConfig env now st c = (st, [], []) := by
  simp [processConfig, h]

theorem processConfig_rate (env : WfEnv) (now : Nat) (st : WorkflowState) (c : AlertConfig)
    (h2 : now - lookupChecked st.lastChecked c.marketId < 60000) :
    processConfig env now st c = (st, [], []) := by
  by_cases h1 : alertKey c ∈ st.triggeredAlerts
  · simp [processConfig, h1]
  · simp [processConfig, h1, h2]

/-- Exhaustive shape analysis of one loop iteration: either the condition is
skipped (already fired, or its market is rate-limited) with no state change
and no events, or the poll timestamp is recorded, a fetch is attempted, and
the iteration ends in one of three ways: transient skip, failed notify, or
successful notify that records the key and one description. -/
theorem processConfig_cases (env : WfEnv) (now : Nat) (st : WorkflowState) (c : AlertConfig) :
    (processConfig env now st c = (st, [], []) ∧
      (alertKey c ∈ st.triggeredAlerts ∨
        now - lookupChecked st.lastChecked c.marketId < 60000)) ∨
    (alertKey c ∉ st.triggeredAlerts ∧
      ¬ now - lookupChecked st.lastChecked c.marketId < 60000 ∧
      (processConfig env now st c =
          ({ st with lastChecked := setChecked st.lastChecked c.marketId now }, [],
            [WfEvent.fetch c.marketId (alertKey c)]) ∨
       processConfig env now st c =
          ({ st with lastChecked := setChecked st.lastChecked c.marketId now }, [],
            [WfEvent.fetch c.marketId (alertKey c),
             WfEvent.notify c.marketId (alertKey c) false]) ∨
       ∃ msg, processConfig env now st c =
          ({ st with lastChecked := setChecked st.lastChecked c.marketId now,
                     triggeredAlerts := st.triggeredAlerts ++ [alertKey c] }, [msg],
            [WfEvent.fetch c.marketId (alertKey c),
             WfEvent.notify c.marketId (alertKey c) true]))) := by
  by_cases h1 : alertKey c ∈ st.triggeredAlerts
  · exact Or.inl ⟨processConfig_fired env now st c h1, Or.inl h1⟩
  · by_cases h2 : now - lookupChecked st.lastChecked c.marketId < 60000
    · exact Or.inl ⟨processConfig_rate env now st c h2, Or.inr h2⟩
    · refine Or.inr ⟨h1, h2, ?_⟩
      rcases hf : env.fetchMarketData c.marketId with _ | market
      · exact Or.inl (by simp [processConfig, h1, h2, hf])
      · by_cases ha : (!market.active || market.closed) = true
        · exact Or.inl (by simp only [processConfig, hf]; simp [h1, h2, ha])
        · by_cases hc : checkAlertCondition market c = true
          · by_cases hs : env.sendAlertOk c market
              (jsMul (match findToken market c.outcome with
                      | some t => t.price
                      | none => 0) 100) = true
            · refine Or.inr (Or.inr
                ⟨alertMessage market c
                  (jsMul (match findToken market c.outcome with
                          | some t => t.price
                          | none => 0) 100), ?_⟩)
              simp only [processConfig, hf]
              simp [h1, h2, ha, hc, hs]
            · refine Or.inr (Or.inl ?_)
              simp only [processConfig, hf]
              simp [h1, h2, ha, hc, hs]
          · refine Or.inl ?_
            simp only [processConfig, hf]
            simp [h1, h2, ha, hc]

theorem processConfig_alertConfigs (env : WfEnv) (now : Nat) (st : WorkflowState)
    (c : AlertConfig) : (processConfig env now st c).1.alertConfigs = st.alertConfigs := by
  rcases processConfig_cases env now st c with ⟨h, _⟩ | ⟨_, _, h | h | ⟨msg, h⟩⟩ <;> simp [h]

theorem processConfig_triggered (env : WfEnv) (now : Nat) (st : WorkflowState)
    (c : AlertConfig) :
    (processConfig env now st c).1.triggeredAlerts
      = st.triggeredAlerts ++ successKeys (processConfig env now st c).2.2 := by
  rcases processConfig_cases env now st c with ⟨h, _⟩ | ⟨_, _, h | h | ⟨msg, h⟩⟩ <;>
    simp [h, successKeys]

theorem processConfig_alerts_length (env : WfEnv) (now : Nat) (st : WorkflowState)
    (c : AlertConfig) :
    (processConfig env now st c).2.1.length
      = (successKeys (processConfig env now st c).2.2).length := by
  rcases processConfig_cases env now st c with ⟨h, _⟩ | ⟨_, _, h | h | ⟨msg, h⟩⟩ <;>
    simp [h, successKeys]

theorem processConfig_event_attribution (env : WfEnv) (now : Nat) (st : WorkflowState)
    (c : AlertConfig) :
    ∀ e ∈ (processConfig env now st c).2.2,
      eventKey e = alertKey c ∧ eventMarket e = c.marketId := by
  rcases processConfig_cases env now st c with ⟨h, _⟩ | ⟨_, _, h | h | ⟨msg, h⟩⟩ <;>
    simp [h, eventKey, eventMarket]

theorem processConfig_lastChecked (env : WfEnv) (now : Nat) (st : WorkflowState)
    (c : AlertConfig) :
    (processConfig env now st c).1.lastChecked = st.lastChecked ∨
    (processConfig env now st c).1.lastChecked = setChecked st.lastChecked c.marketId now := by
  rcases processConfig_cases env now st c with ⟨h, _⟩ | ⟨_, _, h | h | ⟨msg, h⟩⟩ <;> simp [h]

/-! ### Pass-level invariants of the loop -/

theorem runConfigs_alertConfigs (env : WfEnv) (now : Nat) (cs : List AlertConfig)
    (st : WorkflowState) : (runConfigs env now cs st).1.alertConfigs = st.alertConfigs := by
  induction cs generalizing st with
  | nil => rfl
  | cons c cs ih =>
    simp only [runConfigs]
    rw [ih, processConfig_alertConfigs]

theorem runConfigs_triggered (env : WfEnv) (now : Nat) (cs : List AlertConfig)
    (st : WorkflowState) :
    (runConfigs env now cs st).1.triggeredAlerts
      = st.triggeredAlerts ++ successKeys (runConfigs env now cs st).2.2 := by
  induction cs generalizing st with
  | nil => simp [runConfigs, successKeys]
  | cons c cs ih =>
    simp only [runConfigs, successKeys, List.filterMap_append]
    rw [← successKeys, ← successKeys, ih, processConfig_triggered, List.append_assoc]

theorem runConfigs_alerts_length (env : WfEnv) (now : Nat) (cs : List AlertConfig)
    (st : WorkflowState) :
    (runConfigs env now cs st).2.1.length
      = (successKeys (runConfigs env now cs st).2.2).length := by
  induction cs generalizing st with
  | nil => simp [runConfigs, successKeys]
  | cons c cs ih =>
    simp only [runConfigs, successKeys, List.filterMap_append, List.length_append]
    rw [← successKeys, ← successKeys, ih, processConfig_alerts_length]

theorem runConfigs_mem_triggered (env : WfEnv) (now : Nat) (cs : List AlertConfig)
    (st : WorkflowState) (k : String) (h : k ∈ st.triggeredAlerts) :
    k ∈ (runConfigs env now cs st).1.triggeredAlerts := by
  rw [runConfigs_triggered]
  exact List.mem_append_left _ h

theorem runConfigs_no_events_of_mem (env : WfEnv) (now : Nat) (cs : List AlertConfig)
    (st : WorkflowState) (k : String) (h : k ∈ st.triggeredAlerts) :
    countEventsForKey k (runConfigs env now cs st).2.2 = 0 := by
  induction cs generalizing st with
  | nil => simp [runConfigs, countEventsForKey]
  | cons c cs ih =>
    simp only [runConfigs, countEventsForKey, List.countP_append]
    have hmem : k ∈ (processConfig env now st c).1.triggeredAlerts := by
      rw [processConfig_triggered]; exact List.mem_append_left _ h
    have hhead : (processConfig env now st c).2.2.countP (fun e => eventKey e == k) = 0 := by
      by_cases hk : alertKey c = k
      · rw [processConfig_fired env now st c (hk ▸ h)]
        simp
      · rw [List.countP_eq_zero]
        intro e he
        have := (processConfig_event_attribution env now st c e he).1
        simp [this, hk]
    rw [hhead, ← countEventsForKey, ih _ hmem]

theorem runConfigs_success_bound (env : WfEnv) (now : Nat) (cs : List AlertConfig)
    (st : WorkflowState) (k : String) :
    countNotifySuccess k (runConfigs env now cs st).2.2
      + (if k ∈ st.triggeredAlerts then 1 else 0) ≤ 1 := by
  induction cs generalizing st with
  | nil =>
    simp only [runConfigs, countNotifySuccess, List.countP_nil, Nat.zero_add]
    split <;> simp
  | cons c cs ih =>
    simp only [runConfigs, countNotifySuccess, List.countP_append]
    rcases processConfig_cases env now st c with ⟨h, _⟩ | ⟨hns, _, h | h | ⟨msg, h⟩⟩
    · rw [h]
      simpa [countNotifySuccess] using ih st
    · rw [h]
      simpa [countNotifySuccess] using ih _
    · rw [h]
      simpa [countNotifySuccess] using ih _
    · rw [h]
      have hrest := ih { st with lastChecked := setChecked st.lastChecked c.marketId now, triggeredAlerts := st.triggeredAlerts ++ [alertKey c] }
      simp only [countNotifySuccess] at hrest ⊢
      by_cases hk : alertKey c = k
      · have hδ : List.countP (fun e => match e with
            | WfEvent.notify _ k2 true => k2 == k
            | _ => false) [WfEvent.fetch c.marketId (alertKey c),
                           WfEvent.notify c.marketId (alertKey c) true] = 1 := by
          simp [hk]
        have hmem : k ∈ st.triggeredAlerts ++ [alertKey c] := by simp [hk]
        rw [if_pos hmem] at hrest
        have hnot : ¬ k ∈ st.triggeredAlerts := fun hx => hns (hk ▸ hx)
        rw [hδ, if_neg hnot]
        omega
      · have hδ : List.countP (fun e => match e with
            | WfEvent.notify _ k2 true => k2 == k
            | _ => false) [WfEvent.fetch c.marketId (alertKey c),
                           WfEvent.notify c.marketId (alertKey c) true] = 0 := by
          simp [hk]
        have hmem : (k ∈ st.triggeredAlerts ++ [alertKey c]) ↔ k ∈ st.triggeredAlerts := by
          simp [Ne.symm hk]
        simp only [hmem] at hrest
        rw [hδ]
        omega

theorem runConfigs_lookup_cases (env : WfEnv) (now : Nat) (cs : List AlertConfig)
    (st : WorkflowState) (m : String) :
    lookupChecked (runConfigs env now cs st).1.lastChecked m
        = lookupChecked st.lastChecked m ∨
    lookupChecked (runConfigs env now cs st).1.lastChecked m = now := by
  induction cs generalizing st with
  | nil => exact Or.inl rfl
  | cons c cs ih =>
    simp only [runConfigs]
    rcases ih (processConfig env now st c).1 with h | h
    · rcases processConfig_lastChecked env now st c with hl | hl
      · rw [h, hl]
        exact Or.inl rfl
      · by_cases hm : m = c.marketId
        · subst hm
          rw [h, hl, lookupChecked_setChecked_self]
          exact Or.inr rfl
        · rw [h, hl, lookupChecked_setChecked_ne _ _ _ _ hm]
          exact Or.inl rfl
    · exact Or.inr h

theorem runConfigs_lookup_stable (env : WfEnv) (now : Nat) (cs : List AlertConfig)
    (st : WorkflowState) (m : String) (h : lookupChecked st.lastChecked m = now) :
    lookupChecked (runConfigs env now cs st).1.lastChecked m = now := by
  rcases runConfigs_lookup_cases env now cs st m with h' | h'
  · rw [h', h]
  · exact h'

theorem runConfigs_lookup_noPoll (env : WfEnv) (now : Nat) (cs : List AlertConfig)
    (st : WorkflowState) (m : String)
    (h : now - lookupChecked st.lastChecked m < 60000) :
    lookupChecked (runConfigs env now cs st).1.lastChecked m
      = lookupChecked st.lastChecked m := by
  induction cs generalizing st with
  | nil => rfl
  | cons c cs ih =>
    simp only [runConfigs]
    rcases processConfig_cases env now st c with ⟨heq, _⟩ | ⟨_, h2, heq | heq | ⟨msg, heq⟩⟩ <;>
      rw [heq]
    · exact ih st h
    all_goals {
      by_cases hm : m = c.marketId
      · exact absurd (hm ▸ h) h2
      · have hl : lookupChecked (setChecked st.lastChecked c.marketId now) m
            = lookupChecked st.lastChecked m := lookupChecked_setChecked_ne _ _ _ _ hm
        refine (ih _ ?_).trans hl
        show now - lookupChecked (setChecked st.lastChecked c.marketId now) m < 60000
        rw [hl]
        exact h }

/-- Pass-one characterisation used for the idempotence analysis: a condition
of the pass that is still unfired afterwards either had its market's
timestamp advanced to `now` by the pass, or its market was inside the
rate-limit window at pass time and its timestamp is unchanged. -/
theorem runConfigs_reached (env : WfEnv) (now : Nat) (cs : List AlertConfig)
    (st : WorkflowState) (c : AlertConfig) (hc : c ∈ cs)
    (hk : alertKey c ∉ (runConfigs env now cs st).1.triggeredAlerts) :
    lookupChecked (runConfigs env now cs st).1.lastChecked c.marketId = now ∨
    (now - lookupChecked st.lastChecked c.marketId < 60000 ∧
     lookupChecked (runConfigs env now cs st).1.lastChecked c.marketId
       = lookupChecked st.lastChecked c.marketId) := by
  induction cs generalizing st with
  | nil => exact absurd hc (List.not_mem_nil c)
  | cons c0 cs ih =>
    rcases List.mem_cons.mp hc with hhead | htail
    · subst hhead
      rcases processConfig_cases env now st c with ⟨heq, hreason⟩ | ⟨h1, h2, heq | heq | ⟨msg, heq⟩⟩
      · rcases hreason with hmem | hrate
        · exact absurd (runConfigs_mem_triggered env now (c :: cs) st _ hmem) hk
        · simp only [runConfigs, heq]
          rcases runConfigs_lookup_cases env now cs st c.marketId with h | h
          · exact Or.inr ⟨hrate, h⟩
          · exact Or.inl h
      · simp only [runConfigs, heq]
        exact Or.inl (runConfigs_lookup_stable env now cs _ c.marketId
          (lookupChecked_setChecked_self _ _ _))
      · simp only [runConfigs, heq]
        exact Or.inl (runConfigs_lookup_stable env now cs _ c.marketId
          (lookupChecked_setChecked_self _ _ _))
      · simp only [runConfigs, heq]
        exact Or.inl (runConfigs_lookup_stable env now cs _ c.marketId
          (lookupChecked_setChecked_self _ _ _))
    · have hk' : alertKey c ∉ (runConfigs env now cs (processConfig env now st c0).1).1.triggeredAlerts := by
        simpa only [runConfigs] using hk
      rcases ih (processConfig env now st c0).1 htail hk' with h | ⟨hlt, heqv⟩
      · exact Or.inl (by simpa only [runConfigs] using h)
      · rcases processConfig_lastChecked env now st c0 with hl | hl
        · rw [hl] at hlt heqv
          exact Or.inr ⟨hlt, by simpa only [runConfigs, hl] using heqv⟩
        · by_cases hm : c.marketId = c0.marketId
          · have hset : lookupChecked (setChecked st.lastChecked c0.marketId now) c.marketId
                = now := by
              rw [hm]
              exact lookupChecked_setChecked_self _ _ _
            rw [hl, hset] at heqv
            exact Or.inl (by simpa only [runConfigs] using heqv)
          · rw [hl, lookupChecked_setChecked_ne _ _ _ _ hm] at hlt heqv
            exact Or.inr ⟨hlt, by simpa only [runConfigs] using heqv⟩

/-- When every condition is either already fired or rate-limited, a pass is a
no-op: no state change, no descriptions, no events. -/
theorem runConfigs_allSkip (env : WfEnv) (now : Nat) (cs : List AlertConfig)
    (st : WorkflowState)
    (h : ∀ c ∈ cs, alertKey c ∈ st.triggeredAlerts ∨
          now - lookupChecked st.lastChecked c.marketId < 60000) :
    runConfigs env now cs st = (st, [], []) := by
  induction cs with
  | nil => rfl
  | cons c cs ih =>
    have hskip : processConfig env now st c = (st, [], []) := by
      rcases h c (List.mem_cons_self c cs) with hm | hr
      · exact processConfig_fired env now st c hm
      · exact processConfig_rate env now st c hr
    simp only [runConfigs, hskip]
    rw [ih (fun c' hc' => h c' (List.mem_cons_of_mem c hc'))]
    rfl

/-! ### Multi-pass lemmas -/

theorem mem_successKeys_iff (k : String) (tr : List WfEvent) :
    k ∈ successKeys tr ↔ 0 < countNotifySuccess k tr := by
  induction tr with
  | nil => simp [successKeys, countNotifySuccess]
  | cons e tr ih =>
    cases e with
    | fetch m k2 => simpa [successKeys, countNotifySuccess] using ih
    | notify m k2 b =>
      cases b with
      | false => simpa [successKeys, countNotifySuccess] using ih
      | true =>
        by_cases hk : k2 = k
        · simp [successKeys, countNotifySuccess, hk]
        · simp only [successKeys, countNotifySuccess, List.filterMap_cons, List.countP_cons] at ih ⊢
          simp [hk, Ne.symm hk, ih]

theorem runPasses_mem_triggered (ps : List (WfEnv × Nat)) (s : WorkflowState) (k : String)
    (h : k ∈ s.triggeredAlerts) : k ∈ (runPasses ps s).1.triggeredAlerts := by
  induction ps generalizing s with
  | nil => exact h
  | cons p ps ih =>
    simp only [runPasses, executeWorkflowT]
    exact ih _ (runConfigs_mem_triggered p.1 p.2 s.alertConfigs s k h)

theorem runPasses_no_events_of_mem (ps : List (WfEnv × Nat)) (s : WorkflowState) (k : String)
    (h : k ∈ s.triggeredAlerts) : countEventsForKey k (runPasses ps s).2 = 0 := by
  induction ps generalizing s with
  | nil => rfl
  | cons p ps ih =>
    simp only [runPasses, executeWorkflowT, countEventsForKey, List.countP_append]
    rw [← countEventsForKey, ← countEventsForKey,
      runConfigs_no_events_of_mem p.1 p.2 s.alertConfigs s k h,
      ih _ (runConfigs_mem_triggered p.1 p.2 s.alertConfigs s k h)]

theorem runPasses_success_bound (ps : List (WfEnv × Nat)) (s : WorkflowState) (k : String) :
    countNotifySuccess k (runPasses ps s).2 + (if k ∈ s.triggeredAlerts then 1 else 0) ≤ 1 := by
  induction ps generalizing s with
  | nil =>
    simp only [runPasses, countNotifySuccess, List.countP_nil, Nat.zero_add]
    split <;> simp
  | cons p ps ih =>
    simp only [runPasses, executeWorkflowT, countNotifySuccess, List.countP_append]
    have hpass := runConfigs_success_bound p.1 p.2 s.alertConfigs s k
    have hrest := ih (runConfigs p.1 p.2 s.alertConfigs s).1
    have htrig := runConfigs_triggered p.1 p.2 s.alertConfigs s
    simp only [countNotifySuccess] at hpass hrest
    by_cases hin : k ∈ s.triggeredAlerts
    · have hin1 : k ∈ (runConfigs p.1 p.2 s.alertConfigs s).1.triggeredAlerts :=
        runConfigs_mem_triggered p.1 p.2 s.alertConfigs s k hin
      rw [if_pos hin]
      rw [if_pos hin] at hpass
      rw [if_pos hin1] at hrest
      omega
    · rw [if_neg hin]
      rw [if_neg hin] at hpass
      by_cases hks : k ∈ successKeys (runConfigs p.1 p.2 s.alertConfigs s).2.2
      · have hin1 : k ∈ (runConfigs p.1 p.2 s.alertConfigs s).1.triggeredAlerts := by
          rw [htrig]
          exact List.mem_append_right _ hks
        rw [if_pos hin1] at hrest
        have hA := (mem_successKeys_iff k _).mp hks
        simp only [countNotifySuccess] at hA
        omega
      · have hin1 : k ∉ (runConfigs p.1 p.2 s.alertConfigs s).1.triggeredAlerts := by
          rw [htrig]
          simp only [List.mem_append]
          exact fun hx => hx.elim hin hks
        rw [if_neg hin1] at hrest
        have hA : ¬ 0 < countNotifySuccess k (runConfigs p.1 p.2 s.alertConfigs s).2.2 :=
          fun hx => hks ((mem_successKeys_iff k _).mpr hx)
        simp only [countNotifySuccess] at hA
        omega

/-! ### Market-level per-pass lemmas -/

theorem countFetchMkt_append (m : String) (a b : List WfEvent) :
    countFetchMkt m (a ++ b) = countFetchMkt m a + countFetchMkt m b :=
  List.countP_append _ _ _

theorem countNotifyMkt_append (m : String) (a b : List WfEvent) :
    countNotifyMkt m (a ++ b) = countNotifyMkt m a + countNotifyMkt m b :=
  List.countP_append _ _ _

theorem runConfigs_inert_market (env : WfEnv) (now : Nat) (cs : List AlertConfig)
    (st : WorkflowState) (m : String) (h : lookupChecked st.lastChecked m = now) :
    countFetchMkt m (runConfigs env now cs st).2.2 = 0 ∧
    countNotifyMkt m (runConfigs env now cs st).2.2 = 0 := by
  induction cs generalizing st with
  | nil => simp [runConfigs, countFetchMkt, countNotifyMkt]
  | cons c cs ih =>
    simp only [runConfigs]
    by_cases hm : c.marketId = m
    · have hskip : processConfig env now st c = (st, [], []) :=
        processConfig_rate env now st c (by rw [hm, h]; omega)
      simp only [hskip]
      simpa [countFetchMkt_append] using ih st h
    · have hpres : lookupChecked (setChecked st.lastChecked c.marketId now) m = now := by
        rw [lookupChecked_setChecked_ne _ _ _ _ (fun hx => hm hx.symm)]
        exact h
      rcases processConfig_cases env now st c with ⟨heq, _⟩ | ⟨_, _, heq | heq | ⟨msg, heq⟩⟩ <;>
        simp only [heq]
      · simpa [countFetchMkt_append] using ih st h
      · rcases ih { st with lastChecked := setChecked st.lastChecked c.marketId now } hpres
          with ⟨hf, hn⟩
        rw [countFetchMkt_append, countNotifyMkt_append, hf, hn]
        simp [countFetchMkt, countNotifyMkt, hm]
      · rcases ih { st with lastChecked := setChecked st.lastChecked c.marketId now } hpres
          with ⟨hf, hn⟩
        rw [countFetchMkt_append, countNotifyMkt_append, hf, hn]
        simp [countFetchMkt, countNotifyMkt, hm]
      · rcases ih { st with lastChecked := setChecked st.lastChecked c.marketId now, triggeredAlerts := st.triggeredAlerts ++ [alertKey c] } hpres
          with ⟨hf, hn⟩
        rw [countFetchMkt_append, countNotifyMkt_append, hf, hn]
        simp [countFetchMkt, countNotifyMkt, hm]

theorem runConfigs_market_bound (env : WfEnv) (now : Nat) (cs : List AlertConfig)
    (st : WorkflowState) (m : String) :
    countFetchMkt m (runConfigs env now cs st).2.2 ≤ 1 ∧
    countNotifyMkt m (runConfigs env now cs st).2.2
      ≤ countFetchMkt m (runConfigs env now cs st).2.2 := by
  induction cs generalizing st with
  | nil => simp [runConfigs, countFetchMkt, countNotifyMkt]
  | cons c cs ih =>
    simp only [runConfigs]
    rcases processConfig_cases env now st c with ⟨heq, _⟩ | ⟨_, _, heq | heq | ⟨msg, heq⟩⟩ <;>
      simp only [heq]
    · simpa [countFetchMkt_append, countNotifyMkt_append] using ih st
    · by_cases hm : c.marketId = m
      · rcases runConfigs_inert_market env now cs
            { st with lastChecked := setChecked st.lastChecked c.marketId now } m
            (by rw [← hm]; exact lookupChecked_setChecked_self _ _ _) with ⟨hf, hn⟩
        rw [countFetchMkt_append, countNotifyMkt_append, hf, hn]
        simp [countFetchMkt, countNotifyMkt, hm]
      · rcases ih { st with lastChecked := setChecked st.lastChecked c.marketId now }
          with ⟨hf, hn⟩
        have hdf : countFetchMkt m [WfEvent.fetch c.marketId (alertKey c)] = 0 := by
          simp [countFetchMkt, hm]
        have hdn : countNotifyMkt m [WfEvent.fetch c.marketId (alertKey c)] = 0 := by
          simp [countNotifyMkt]
        rw [countFetchMkt_append, countNotifyMkt_append, hdf, hdn]
        exact ⟨by omega, by omega⟩
    · by_cases hm : c.marketId = m
      · rcases runConfigs_inert_market env now cs
            { st with lastChecked := setChecked st.lastChecked c.marketId now } m
            (by rw [← hm]; exact lookupChecked_setChecked_self _ _ _) with ⟨hf, hn⟩
        rw [countFetchMkt_append, countNotifyMkt_append, hf, hn]
        simp [countFetchMkt, countNotifyMkt, hm]
      · rcases ih { st with lastChecked := setChecked st.lastChecked c.marketId now }
          with ⟨hf, hn⟩
        have hdf : countFetchMkt m [WfEvent.fetch c.marketId (alertKey c),
            WfEvent.notify c.marketId (alertKey c) false] = 0 := by
          simp [countFetchMkt, hm]
        have hdn : countNotifyMkt m [WfEvent.fetch c.marketId (alertKey c),
            WfEvent.notify c.marketId (alertKey c) false] = 0 := by
          simp [countNotifyMkt, hm]
        rw [countFetchMkt_append, countNotifyMkt_append, hdf, hdn]
        exact ⟨by omega, by omega⟩
    · by_cases hm : c.marketId = m
      · rcases runConfigs_inert_market env now cs
            { st with lastChecked := setChecked st.lastChecked c.marketId now, triggeredAlerts := st.triggeredAlerts ++ [alertKey c] } m
            (by rw [← hm]; exact lookupChecked_setChecked_self _ _ _) with ⟨hf, hn⟩
        rw [countFetchMkt_append, countNotifyMkt_append, hf, hn]
        simp [countFetchMkt, countNotifyMkt, hm]
      · rcases ih { st with lastChecked := setChecked st.lastChecked c.marketId now, triggeredAlerts := st.triggeredAlerts ++ [alertKey c] }
          with ⟨hf, hn⟩
        have hdf : countFetchMkt m [WfEvent.fetch c.marketId (alertKey c),
            WfEvent.notify c.marketId (alertKey c) true] = 0 := by
          simp [countFetchMkt, hm]
        have hdn : countNotifyMkt m [WfEvent.fetch c.marketId (alertKey c),
            WfEvent.notify c.marketId (alertKey c) true] = 0 := by
          simp [countNotifyMkt, hm]
        rw [countFetchMkt_append, countNotifyMkt_append, hdf, hdn]
        exact ⟨by omega, by omega⟩

/-! ### Concrete scenarios used by the claim theorems and witnesses -/

/-- A single-market condition on the `Yes` outcome at threshold 60, above. -/
def cfgM : AlertConfig :=
  { marketId := "M", outcome := "Yes", threshold := 60, direction := .above, notifyUrl := "u" }

/-- A data source whose market is active, open, with `Yes` priced at 0.70, and
whose notifier always succeeds. -/
def envDemo : WfEnv :=
  { fetchMarketData := fun _ => some
      { condition_id := "M", question := "Q",
        tokens := [{ token_id := "t", outcome := "Yes", price := mkRat 7 10 }],
        active := true, closed := false },
    sendAlertOk := fun _ _ _ => true }

/-- The same data source with a notifier that always fails. -/
def envFailDemo : WfEnv :=
  { fetchMarketData := envDemo.fetchMarketData, sendAlertOk := fun _ _ _ => false }

/-- A fresh engine state holding `cfgM` only. -/
def stFresh : WorkflowState :=
  { alertConfigs := [cfgM], lastChecked := [], triggeredAlerts := [] }

/-- The state of `stFresh` with `cfgM` already fired. -/
def stFired : WorkflowState :=
  { alertConfigs := [cfgM], lastChecked := [], triggeredAlerts := ["M-Yes-60-above"] }

/-- The state of `stFresh` with market `M` last polled 59999 ms before
timestamp 100000 (inside the rate-limit window at the first pass, outside it
two milliseconds later). -/
def stAlmost : WorkflowState :=
  { alertConfigs := [cfgM], lastChecked := [("M", 40001)], triggeredAlerts := [] }

/-! ### C1 — at-most-once firing across passes -/

/-- C1: across any sequence of passes from any state, a condition key receives
at most one successful notifier invocation in total (none when the key starts
in `triggeredAlerts`); a key in `triggeredAlerts` stays there forever and the
engine never fetches, evaluates, or notifies for it again. -/
theorem C1_at_most_once (s : WorkflowState) (ps : List (WfEnv × Nat)) (key : String) :
    countNotifySuccess key (runPasses ps s).2
        + (if key ∈ s.triggeredAlerts then 1 else 0) ≤ 1 ∧
    (key ∈ s.triggeredAlerts →
      key ∈ (runPasses ps s).1.triggeredAlerts ∧
      countEventsForKey key (runPasses ps s).2 = 0) :=
  ⟨runPasses_success_bound ps s key,
   fun h => ⟨runPasses_mem_triggered ps s key h, runPasses_no_events_of_mem ps s key h⟩⟩

/-- C1 witness: over a pass sequence from a state where the key is already
fired, the key stays fired and no event at all is attributed to it. -/
theorem C1_at_most_once_witness :
    "M-Yes-60-above" ∈ (runPasses [(envDemo, 100000)] stFired).1.triggeredAlerts ∧
    countEventsForKey "M-Yes-60-above" (runPasses [(envDemo, 100000)] stFired).2 = 0 :=
  (C1_at_most_once stFired [(envDemo, 100000)] "M-Yes-60-above").2 (by decide)

/-! ### C2 — idempotence of an immediately repeated pass -/

/-- C2 counterexample: a second pass two milliseconds after the first (well
inside "immediate succession") produces a new firing and a different fired
set, because market `M` was last polled 59999 ms before the first pass: the
first pass is rate-limit skipped and the second falls outside the 60 s
window. -/
theorem C2_counterexample :
    (100002 : Nat) - 100000 < 60000 ∧
    (executeWorkflow envDemo 100000 stAlmost).2 = [] ∧
    (executeWorkflow envDemo 100002 (executeWorkflow envDemo 100000 stAlmost).1).2 ≠ [] ∧
    (executeWorkflow envDemo 100002
        (executeWorkflow envDemo 100000 stAlmost).1).1.triggeredAlerts ≠
      (executeWorkflow envDemo 100000 stAlmost).1.triggeredAlerts := by
  decide

/-- C2 (amended): a second pass within 60 s of the first produces no firings
and leaves the state (in particular the fired set) unchanged, provided every
market that was inside its 60-second rate-limit window at the first call is
still inside it at the second call (true in particular whenever the two calls
read the same clock value). -/
theorem C2_second_pass_idempotent (env : WfEnv) (t0 t1 : Nat) (s0 : WorkflowState)
    (h1 : t1 - t0 < 60000)
    (h2 : ∀ c ∈ s0.alertConfigs,
            t0 - lookupChecked s0.lastChecked c.marketId < 60000 →
            t1 - lookupChecked s0.lastChecked c.marketId < 60000) :
    executeWorkflow env t1 (executeWorkflow env t0 s0).1
      = ((executeWorkflow env t0 s0).1, []) := by
  have hconf : (runConfigs env t0 s0.alertConfigs s0).1.alertConfigs = s0.alertConfigs :=
    runConfigs_alertConfigs env t0 s0.alertConfigs s0
  have hall : ∀ c ∈ (runConfigs env t0 s0.alertConfigs s0).1.alertConfigs,
      alertKey c ∈ (runConfigs env t0 s0.alertConfigs s0).1.triggeredAlerts ∨
      t1 - lookupChecked (runConfigs env t0 s0.alertConfigs s0).1.lastChecked c.marketId
        < 60000 := by
    intro c hc
    by_cases hm : alertKey c ∈ (runConfigs env t0 s0.alertConfigs s0).1.triggeredAlerts
    · exact Or.inl hm
    · refine Or.inr ?_
      have hc0 : c ∈ s0.alertConfigs := by rw [← hconf]; exact hc
      rcases runConfigs_reached env t0 s0.alertConfigs s0 c hc0 hm with hnow | ⟨hlt, heqv⟩
      · rw [hnow]; exact h1
      · rw [heqv]; exact h2 c hc0 hlt
  have hskip := runConfigs_allSkip env t1
    (runConfigs env t0 s0.alertConfigs s0).1.alertConfigs
    (runConfigs env t0 s0.alertConfigs s0).1 hall
  simp only [executeWorkflow, executeWorkflowT]
  rw [hskip]

/-- C2 witness for the amended statement: with no prior polls recorded, a
pass at 100000 followed by a pass at 100001 is a no-op second time around. -/
theorem C2_second_pass_idempotent_witness :
    executeWorkflow envDemo 100001 (executeWorkflow envDemo 100000 stFresh).1
      = ((executeWorkflow envDemo 100000 stFresh).1, []) :=
  C2_second_pass_idempotent envDemo 100000 100001 stFresh (by decide) (by decide)

/-! ### C4 — inclusive threshold evaluation -/

/-- An active open market whose `Yes` outcome is priced exactly 0.60. -/
def boundaryMarket : PolymarketMarket :=
  { condition_id := "M", question := "Q",
    tokens := [{ token_id := "t", outcome := "Yes", price := mkRat 3 5 }],
    active := true, closed := false }

/-- C4: whenever the condition's outcome label is present in the snapshot,
the condition is met exactly when `price * 100 >= threshold` (direction
`above`) or `price * 100 <= threshold` (direction `below`), inclusively; in
particular an `above`/60 condition fires at a price of exactly 0.60. -/
theorem C4_threshold_inclusive :
    (∀ (market : PolymarketMarket) (config : AlertConfig) (t : PolymarketToken),
      findToken market config.outcome = some t →
      (checkAlertCondition market config = true ↔
        (config.direction = Direction.above ∧ config.threshold ≤ t.price * 100) ∨
        (config.direction = Direction.below ∧ t.price * 100 ≤ config.threshold))) ∧
    checkAlertCondition boundaryMarket cfgM = true := by
  constructor
  · intro market config t h
    simp only [checkAlertCondition, h]
    cases hd : config.direction <;> simp [hd, jsMul_eq]
  · decide

/-- C4 witness: the evaluation rule instantiated at the boundary market. -/
theorem C4_threshold_inclusive_witness :
    checkAlertCondition boundaryMarket cfgM = true ↔
      (cfgM.direction = Direction.above ∧
        cfgM.threshold ≤ (mkRat 3 5 : ℚ) * 100) ∨
      (cfgM.direction = Direction.below ∧
        (mkRat 3 5 : ℚ) * 100 ≤ cfgM.threshold) :=
  C4_threshold_inclusive.1 boundaryMarket cfgM
    { token_id := "t", outcome := "Yes", price := mkRat 3 5 } (by decide)

/-! ### C5 — firing gated on notifier success -/

/-- C5: in every pass, the fired set grows by exactly the keys of the
successful notifier invocations, in order, and exactly one description is
appended per successful invocation (so a failed invocation records no key and
no description, and the conditions are untouched). Concretely: with a failing
notifier the pass leaves the fired set empty, emits no description, and the
trace shows the failed invocation; a later pass with a working notifier then
fires the same condition. -/
theorem C5_firing_gated_on_notifier :
    (∀ (env : WfEnv) (now : Nat) (s : WorkflowState),
      (executeWorkflowT env now s).1.alertConfigs = s.alertConfigs ∧
      (executeWorkflowT env now s).1.triggeredAlerts
        = s.triggeredAlerts ++ successKeys (executeWorkflowT env now s).2.2 ∧
      (executeWorkflowT env now s).2.1.length
        = (successKeys (executeWorkflowT env now s).2.2).length) ∧
    (executeWorkflowT envFailDemo 100000 stFresh).1.triggeredAlerts = [] ∧
    (executeWorkflowT envFailDemo 100000 stFresh).2.1 = [] ∧
    (executeWorkflowT envFailDemo 100000 stFresh).2.2
      = [WfEvent.fetch "M" "M-Yes-60-above",
         WfEvent.notify "M" "M-Yes-60-above" false] ∧
    (executeWorkflowT envDemo 160000
        (executeWorkflowT envFailDemo 100000 stFresh).1).1.triggeredAlerts
      = ["M-Yes-60-above"] := by
  refine ⟨fun env now s => ⟨?_, ?_, ?_⟩, by decide, by decide, by decide, by decide⟩
  · exact runConfigs_alertConfigs env now s.alertConfigs s
  · exact runConfigs_triggered env now s.alertConfigs s
  · exact runConfigs_alerts_length env now s.alertConfigs s

/-! ### C6 — transient skip isolation -/

/-- C6: when an unfired, non-rate-limited condition's fetch returns nothing,
or the fetched market is inactive or closed, the pass records the poll
timestamp, emits the fetch event, and otherwise continues exactly as the pass
over the remaining conditions from that state: no description, no notifier
invocation, no fired key for this condition, and every later condition is
still processed. -/
theorem C6_transient_skip_isolated (env : WfEnv) (now : Nat) (st : WorkflowState)
    (c : AlertConfig) (cs : List AlertConfig)
    (h1 : alertKey c ∉ st.triggeredAlerts)
    (h2 : ¬ now - lookupChecked st.lastChecked c.marketId < 60000)
    (h3 : env.fetchMarketData c.marketId = none ∨
          ∃ mk2, env.fetchMarketData c.marketId = some mk2 ∧
            (mk2.active = false ∨ mk2.closed = true)) :
    runConfigs env now (c :: cs) st =
      ((runConfigs env now cs
          { st with lastChecked := setChecked st.lastChecked c.marketId now }).1,
       (runConfigs env now cs
          { st with lastChecked := setChecked st.lastChecked c.marketId now }).2.1,
       WfEvent.fetch c.marketId (alertKey c)
         :: (runConfigs env now cs
              { st with lastChecked := setChecked st.lastChecked c.marketId now }).2.2) := by
  have hp : processConfig env now st c =
      ({ st with lastChecked := setChecked st.lastChecked c.marketId now }, [],
        [WfEvent.fetch c.marketId (alertKey c)]) := by
    rcases h3 with hf | ⟨mk2, hf, hbad⟩
    · simp [processConfig, h1, h2, hf]
    · simp only [processConfig, hf]
      rcases hbad with hb | hb <;> simp [h1, h2, hb]
  simp only [runConfigs, hp]
  rfl

/-- An environment whose market fetch always fails. -/
def envNoneDemo : WfEnv :=
  { fetchMarketData := fun _ => none, sendAlertOk := fun _ _ _ => true }

/-- C6 witness: a failing fetch for the only condition yields exactly the
timestamp update and the fetch event. -/
theorem C6_transient_skip_isolated_witness :
    runConfigs envNoneDemo 100000 [cfgM] stFresh =
      ((runConfigs envNoneDemo 100000 []
          { stFresh with lastChecked := setChecked stFresh.lastChecked cfgM.marketId 100000 }).1,
       (runConfigs envNoneDemo 100000 []
          { stFresh with lastChecked := setChecked stFresh.lastChecked cfgM.marketId 100000 }).2.1,
       WfEvent.fetch cfgM.marketId (alertKey cfgM)
         :: (runConfigs envNoneDemo 100000 []
              { stFresh with lastChecked := setChecked stFresh.lastChecked cfgM.marketId 100000 }).2.2) :=
  C6_transient_skip_isolated envNoneDemo 100000 stFresh cfgM []
    (by decide) (by decide) (Or.inl rfl)

/-! ### C8 — dedup key versus tuple identity -/

/-- A condition whose marketId contains the key separator. -/
def c8A : AlertConfig :=
  { marketId := "a-b", outcome := "c", threshold := 60, direction := .above, notifyUrl := "u" }

/-- A different tuple that renders to the same key string. -/
def c8B : AlertConfig :=
  { marketId := "a", outcome := "b-c", threshold := 60, direction := .above, notifyUrl := "u" }

/-- A data source for market `a` on which `c8B` would fire. -/
def env8 : WfEnv :=
  { fetchMarketData := fun _ => some
      { condition_id := "a", question := "Q8",
        tokens := [{ token_id := "t", outcome := "b-c", price := mkRat 9 10 }],
        active := true, closed := false },
    sendAlertOk := fun _ _ _ => true }

/-- C8 counterexample: two distinct tuples share one dedup key, and marking
one fired suppresses the other (no event is emitted for `c8B` when `c8A`'s
key is in the fired set, although `c8B` fires from a clean state). -/
theorem C8_counterexample :
    alertKey c8A = alertKey c8B ∧ c8A ≠ c8B ∧
    (executeWorkflowT env8 100000
      { alertConfigs := [c8B], lastChecked := [],
        triggeredAlerts := [alertKey c8A] }).2.2 = [] ∧
    (executeWorkflowT env8 100000
      { alertConfigs := [c8B], lastChecked := [], triggeredAlerts := [] }).2.1 ≠ [] := by
  decide

/-- C8 (amended): equality of the tuple `(marketId, outcomeSide, threshold,
direction)` implies equality of the engine's dedup key (two such conditions
are the same alert for firing purposes, whatever their notify targets); the
converse fails, since the string-joined key can collide for distinct tuples
whose fields contain the `-` separator. -/
theorem C8_key_of_tuple (c1 c2 : AlertConfig)
    (hm : c1.marketId = c2.marketId) (ho : c1.outcome = c2.outcome)
    (ht : c1.threshold = c2.threshold) (hd : c1.direction = c2.direction) :
    alertKey c1 = alertKey c2 := by
  rw [alertKey, alertKey, hm, ho, ht, hd]

/-- C8 witness: two conditions equal up to the notify target share a key. -/
theorem C8_key_of_tuple_witness :
    alertKey { marketId := "M", outcome := "Yes", threshold := 60,
               direction := .above, notifyUrl := "u1" }
      = alertKey { marketId := "M", outcome := "Yes", threshold := 60,
                   direction := .above, notifyUrl := "u2" } :=
  C8_key_of_tuple _ _ rfl rfl rfl rfl

/-! ### C10 — at most one fetch per market per pass -/

/-- C10: within a single pass, at most one fetch is attempted per marketId
and at most one notifier invocation is made for conditions of that market, so
two conditions sharing a market are never both evaluated (and can never both
fire) in one pass. -/
theorem C10_one_fetch_per_market (env : WfEnv) (now : Nat) (s : WorkflowState) (m : String) :
    countFetchMkt m (executeWorkflowT env now s).2.2 ≤ 1 ∧
    countNotifyMkt m (executeWorkflowT env now s).2.2 ≤ 1 := by
  rcases runConfigs_market_bound env now s.alertConfigs s m with ⟨hf, hn⟩
  exact ⟨hf, hn.trans hf⟩

/-! ### A small backtracking regex engine (JS `RegExp` semantics)

The parser of the source is regex-driven. The engine below implements the
fragment of JS regexes those patterns use: literals, character classes
(`\d`, `\w`, `\s`, `.`, sets), ordered alternation, greedy and lazy
repetition, greedy option, capture groups, and the word-boundary assertion,
with the backtracking priority and leftmost-match rule of JS. Each source
pattern is transcribed below as an `Rx` value, literal by literal. -/

/-- Character classes of the patterns in use. -/
inductive CharCls where
  | one (c : Char)
  | oneOf (cs : List Char)
  | digit
  | word
  | space
  | dot

/-- Class membership; `ci` is the `i` flag, folding letter case. -/
def matchCls (ci : Bool) : CharCls → Char → Bool
  | .one a, c => if ci then a.toLower == c.toLower else a == c
  | .oneOf cs, c => cs.any (fun a => if ci then a.toLower == c.toLower else a == c)
  | .digit, c => isDigitCh c
  | .word, c => isWordCh c
  | .space, c => isSpaceCh c
  | .dot, c => !(c == '\n' || c == '\r')

/-- Regex abstract syntax: `starG`/`optG` are greedy, `starL` is lazy
(`*?` as used by `(.+?)`), `group` captures, `wordB` is `\b`. -/
inductive Rx where
  | eps
  | cls (cc : CharCls)
  | seq (a b : Rx)
  | alt (a b : Rx)
  | starG (a : Rx)
  | starL (a : Rx)
  | optG (a : Rx)
  | group (idx : Nat) (a : Rx)
  | wordB

/-- Work items of the matcher: a regex to match, or a capture group to close
(recording the input at its entry). -/
inductive RxJob where
  | jrx (r : Rx)
  | jclose (idx : Nat) (entry : List Char)

/-- One backtracking alternative: pending jobs, remaining input, the previous
character (for `\b`), and the captures recorded so far. -/
structure RxThread where
  jobs : List RxJob
  inp : List Char
  prev : Option Char
  caps : List (Nat × List Char)

/-- Record a capture (later writes shadow earlier ones). -/
def setCap (caps : List (Nat × List Char)) (i : Nat) (v : List Char) :
    List (Nat × List Char) :=
  (i, v) :: caps

/-- Read a capture. -/
def getCap (caps : List (Nat × List Char)) (i : Nat) : Option (List Char) :=
  (caps.find? (fun p => p.1 == i)).map (fun p => p.2)

/-- The `\b` assertion: the word-ness of the adjacent characters differs
(string edges count as non-word). -/
def atWordBoundary (prev : Option Char) (inp : List Char) : Bool :=
  let pw := match prev with | some c => isWordCh c | none => false
  let nw := match inp with | c :: _ => isWordCh c | [] => false
  pw != nw

/-- The backtracking matcher: runs the first thread, pushing alternatives in
priority order; on success returns the captures and the input remaining after
the match. The fuel only bounds the number of steps; it is never reached on
the inputs of this development. -/
def rxRun (ci : Bool) : Nat → List RxThread → Option (List (Nat × List Char) × List Char)
  | 0, _ => none
  | _ + 1, [] => none
  | fuel + 1, t :: alts =>
    match t.jobs with
    | [] => some (t.caps, t.inp)
    | RxJob.jclose i entry :: rest =>
      rxRun ci fuel
        ({ t with jobs := rest, caps := setCap t.caps i (entry.take (entry.length - t.inp.length)) } :: alts)
    | RxJob.jrx r :: rest =>
      match r with
      | .eps => rxRun ci fuel ({ t with jobs := rest } :: alts)
      | .cls cc =>
        match t.inp with
        | [] => rxRun ci fuel alts
        | c :: inp2 =>
          if matchCls ci cc c then
            rxRun ci fuel ({ t with jobs := rest, inp := inp2, prev := some c } :: alts)
          else rxRun ci fuel alts
      | .seq a b =>
        rxRun ci fuel ({ t with jobs := RxJob.jrx a :: RxJob.jrx b :: rest } :: alts)
      | .alt a b =>
        rxRun ci fuel ({ t with jobs := RxJob.jrx a :: rest } ::
          { t with jobs := RxJob.jrx b :: rest } :: alts)
      | .starG a =>
        rxRun ci fuel ({ t with jobs := RxJob.jrx a :: RxJob.jrx (Rx.starG a) :: rest } ::
          { t with jobs := rest } :: alts)
      | .starL a =>
        rxRun ci fuel ({ t with jobs := rest } ::
          { t with jobs := RxJob.jrx a :: RxJob.jrx (Rx.starL a) :: rest } :: alts)
      | .optG a =>
        rxRun ci fuel ({ t with jobs := RxJob.jrx a :: rest } ::
          { t with jobs := rest } :: alts)
      | .group i a =>
        rxRun ci fuel ({ t with jobs := RxJob.jrx a :: RxJob.jclose i t.inp :: rest } :: alts)
      | .wordB =>
        if atWordBoundary t.prev t.inp then rxRun ci fuel ({ t with jobs := rest } :: alts)
        else rxRun ci fuel alts

/-- Step budget per match attempt. -/
def rxFuel : Nat := 1000000

/-- Leftmost search, as `String.prototype.match` without `g`: try the match
at each start position from the left, tracking the previous character. -/
def rxSearchAux (ci : Bool) (r : Rx) :
    Option Char → List Char → Option (List (Nat × List Char) × List Char)
  | prev, [] => rxRun ci rxFuel [⟨[RxJob.jrx r], [], prev, []⟩]
  | prev, c :: rest =>
    match rxRun ci rxFuel [⟨[RxJob.jrx r], c :: rest, prev, []⟩] with
    | some res => some res
    | none => rxSearchAux ci r (some c) rest

/-- Captures of the leftmost match, when the regex matches the string. -/
def rxMatchCaps (ci : Bool) (r : Rx) (s : String) : Option (List (Nat × List Char)) :=
  (rxSearchAux ci r none s.data).map (fun p => p.1)

/-- `RegExp.prototype.test`. -/
def rxTest (ci : Bool) (r : Rx) (s : String) : Bool := (rxMatchCaps ci r s).isSome

/-- `String.prototype.split(regex)`: scan left to right, cutting at each
(non-empty) match; the accumulated piece is kept reversed. (The previous
character is not threaded past a cut: the split pattern used here contains no
`\b`, so it is irrelevant to its semantics.) -/
def rxSplitAux (ci : Bool) (r : Rx) :
    Nat → Option Char → List Char → List Char → List (List Char)
  | 0, _, piece, s => [piece.reverse ++ s]
  | fuel + 1, prev, piece, s =>
    match rxRun ci rxFuel [⟨[RxJob.jrx r], s, prev, []⟩] with
    | some (_, rest) =>
      if rest.length < s.length then
        piece.reverse :: rxSplitAux ci r fuel none [] rest
      else
        match s with
        | [] => [piece.reverse]
        | c :: srest => rxSplitAux ci r fuel (some c) (c :: piece) srest
    | none =>
      match s with
      | [] => [piece.reverse]
      | c :: srest => rxSplitAux ci r fuel (some c) (c :: piece) srest

/-- Split a string on a regex delimiter. -/
def jsSplit (ci : Bool) (r : Rx) (s : String) : List String :=
  (rxSplitAux ci r (s.data.length + 1) none [] s.data).map String.mk

/-- `String.prototype.trim` (ASCII whitespace). -/
def jsTrim (s : String) : String :=
  String.mk (((s.data.dropWhile isSpaceCh).reverse.dropWhile isSpaceCh).reverse)

/-! ### Regex building blocks and the source's patterns -/

/-- Literal string. -/
def rstr (s : String) : Rx := s.data.foldr (fun c acc => Rx.seq (Rx.cls (CharCls.one c)) acc) Rx.eps

/-- Sequencing of a pattern list. -/
def rseq (l : List Rx) : Rx := l.foldr Rx.seq Rx.eps

/-- Ordered alternation of a pattern list. -/
def ralt : List Rx → Rx
  | [] => Rx.eps
  | [r] => r
  | r :: rest => Rx.alt r (ralt rest)

/-- Greedy `+`. -/
def rplus (r : Rx) : Rx := Rx.seq r (Rx.starG r)

/-- `\s+`. -/
def sp1 : Rx := rplus (Rx.cls CharCls.space)

/-- `\s*`. -/
def sp0 : Rx := Rx.starG (Rx.cls CharCls.space)

/-- `\d+`. -/
def digitsRx : Rx := rplus (Rx.cls CharCls.digit)

/-- `\d+(?:\.\d+)?`. -/
def numRx : Rx := Rx.seq digitsRx (Rx.optG (Rx.seq (Rx.cls (CharCls.one '.')) digitsRx))

/-- `.+?` (lazy). -/
def lazyDotPlus : Rx := Rx.seq (Rx.cls CharCls.dot) (Rx.starL (Rx.cls CharCls.dot))

/-- `\w+`. -/
def wordPlus : Rx := rplus (Rx.cls CharCls.word)

/-- `s?`. -/
def optS : Rx := Rx.optG (Rx.cls (CharCls.one 's'))

/-- `(%|percent|cents?)`, the optional unit group of every pattern. -/
def unitRx : Rx := ralt [Rx.cls (CharCls.one '%'), rstr "percent", Rx.seq (rstr "cent") optS]

/-- `(?:when|if|once)`. -/
def whenIfOnce : Rx := ralt [rstr "when", rstr "if", rstr "once"]

/-- Pattern 1 of `parseAlertRequest`:
`/(?:when|if|once)\s+(.+?)\s+(?:odds?|probability|chance|likelihood)\s+(?:to\s+)?(\w+(?:\s+\w+)*)\s+(\d+(?:\.\d+)?)\s*(%|percent|cents?)?/i`. -/
def pat1 : Rx := rseq [whenIfOnce, sp1, Rx.group 1 lazyDotPlus, sp1,
  ralt [Rx.seq (rstr "odd") optS, rstr "probability", rstr "chance", rstr "likelihood"],
  sp1, Rx.optG (rseq [rstr "to", sp1]),
  Rx.group 2 (rseq [wordPlus, Rx.starG (rseq [sp1, wordPlus])]),
  sp1, Rx.group 3 numRx, sp0, Rx.optG (Rx.group 4 unitRx)]

/-- Pattern 2 of `parseAlertRequest`:
`/(?:when|if|once)\s+(.+?)\s+(exceeds?|goes?\s+above|rises?\s+to|drops?\s+(?:to|below)|falls?\s+(?:to|below)|goes?\s+below)\s+(\d+(?:\.\d+)?)\s*(%|percent|cents?)?/i`. -/
def pat2 : Rx := rseq [whenIfOnce, sp1, Rx.group 1 lazyDotPlus, sp1,
  Rx.group 2 (ralt [
    Rx.seq (rstr "exceed") optS,
    rseq [rstr "goe", optS, sp1, rstr "above"],
    rseq [rstr "rise", optS, sp1, rstr "to"],
    rseq [rstr "drop", optS, sp1, ralt [rstr "to", rstr "below"]],
    rseq [rstr "fall", optS, sp1, ralt [rstr "to", rstr "below"]],
    rseq [rstr "goe", optS, sp1, rstr "below"]]),
  sp1, Rx.group 3 numRx, sp0, Rx.optG (Rx.group 4 unitRx)]

/-- Pattern 3 of `parseAlertRequest` (no `i` flag):
`/(.+?)\s*([<>])\s*(\d+(?:\.\d+)?)\s*(%|percent|cents?)?/`. -/
def pat3 : Rx := rseq [Rx.group 1 lazyDotPlus, sp0,
  Rx.group 2 (Rx.cls (CharCls.oneOf ['<', '>'])), sp0,
  Rx.group 3 numRx, sp0, Rx.optG (Rx.group 4 unitRx)]

/-- Pattern 4 of `parseAlertRequest`:
`/(.+?)\s+(hits?|reaches?|at|to)\s+(\d+(?:\.\d+)?)\s*(%|percent|cents?)?/i`. -/
def pat4 : Rx := rseq [Rx.group 1 lazyDotPlus, sp1,
  Rx.group 2 (ralt [Rx.seq (rstr "hit") optS, Rx.seq (rstr "reache") optS,
    rstr "at", rstr "to"]),
  sp1, Rx.group 3 numRx, sp0, Rx.optG (Rx.group 4 unitRx)]

/-- The conjunction delimiter of `parseMultiConditionAlert`:
`/\s+(?:and|or|,|&|\|)\s+/i`. -/
def conjRx : Rx := rseq [sp1,
  ralt [rstr "and", rstr "or", Rx.cls (CharCls.one ','),
    Rx.cls (CharCls.one '&'), Rx.cls (CharCls.one '|')], sp1]

/-! ### The condition parser (`parseAlertRequest` and helpers) -/

/-- An apostrophe, spelled via its code point. -/
def apos : String := String.singleton (Char.ofNat 39)

/-- The `ABOVE_KEYWORDS` list of the source. -/
def ABOVE_KEYWORDS : List String :=
  ["exceed", "exceeds", "above", "over", "greater than", "more than",
   "reaches", "hits", "gets to", "goes above", "rises to", "climbs to",
   "surpasses", "passes", "breaks", "tops", ">"]

/-- The `BELOW_KEYWORDS` list of the source. -/
def BELOW_KEYWORDS : List String :=
  ["fall below", "below", "under", "less than", "drops to", "drops below",
   "falls to", "falls under", "dips to", "dips below", "sinks to",
   "declines to", "<"]

/-- The `YES_KEYWORDS` list of the source (never consulted by
`detectOutcome`, which returns `Yes` by default). -/
def YES_KEYWORDS : List String :=
  ["yes", "true", "will", "pass", "approve", "win", "happen"]

/-- The `NO_KEYWORDS` list of the source. -/
def NO_KEYWORDS : List String :=
  ["no", "false", "won" ++ apos ++ "t", "fail", "reject", "lose",
   "doesn" ++ apos ++ "t"]

/-- Direction detection (`detectDirection`): substring scan of the lowercased
text, below-cues before above-cues. -/
def detectDirection (text : String) : Option Direction :=
  let lower := jsToLower text
  if BELOW_KEYWORDS.any (fun kw => jsIncludes lower kw) then some Direction.below
  else if ABOVE_KEYWORDS.any (fun kw => jsIncludes lower kw) then some Direction.above
  else none

/-- Case-insensitive prefix test on character lists. -/
def startsWithCI : List Char → List Char → Bool
  | _, [] => true
  | [], _ :: _ => false
  | h :: hs, n :: ns => (h.toLower == n.toLower) && startsWithCI hs ns

/-- Word-ness of an optional character (string edges are non-word). -/
def isWordOpt : Option Char → Bool
  | some c => isWordCh c
  | none => false

/-- One start position of the explicit negative-label test of
`detectOutcome`, the regex
`/\b(no outcome|"no"|'no'|\bno\b(?:\s+option|\s+side)?)/i` applied with
`test`: a word boundary, then one of the four alternatives, where for the
existence test the optional `(?:\s+option|\s+side)?` of the last alternative
may always match empty, leaving `\bno\b`. -/
def explicitNoAlt (prev : Option Char) (s : List Char) : Bool :=
  atWordBoundary prev s &&
  (startsWithCI s ("no outcome".data) ||
   startsWithCI s ("\"no\"".data) ||
   startsWithCI s ((apos ++ "no" ++ apos).data) ||
   (startsWithCI s ("no".data) && !(isWordOpt (s.drop 2).head?)))

/-- Existence scan of the explicit negative-label test over all start
positions. -/
def explicitNoScan : Option Char → List Char → Bool
  | prev, [] => explicitNoAlt prev []
  | prev, c :: t => explicitNoAlt prev (c :: t) || explicitNoScan (some c) t

/-- Outcome-side detection (`detectOutcome`): explicit negative-label mention
first, then the negative-cue vocabulary on the lowercased text, else `Yes`. -/
def detectOutcome (text : String) : String :=
  if explicitNoScan none text.data then "No"
  else if NO_KEYWORDS.any (fun kw => jsIncludes (jsToLower text) kw) then "No"
  else "Yes"

/-- Value of a digit string. -/
def natOfDigits (l : List Char) : Nat := l.foldl (fun a c => a * 10 + (c.toNat - 48)) 0

/-- `parseFloat` on the numeric shapes the regexes capture (digits with an
optional fraction, or bare digits). -/
def parseDecimalChars (s : List Char) : ℚ :=
  let ip := s.takeWhile isDigitCh
  let rest := s.dropWhile isDigitCh
  match rest with
  | '.' :: rest2 =>
    let fp := rest2.takeWhile isDigitCh
    mkRat (natOfDigits ip * 10 ^ fp.length + natOfDigits fp) (10 ^ fp.length)
  | _ => mkRat (natOfDigits ip) 1

/-- Scale conversion applied by `extractPercentage` after a pattern matches,
mirroring its `pattern.source.includes` tests: the `cents` pattern returns
the value as is, the pattern whose source contains `0\.` multiplies by 100,
every other pattern (including the bare `/\.(\d+)/`, whose source does not
contain `0\.`) returns the value as is. -/
inductive PctConv where
  | plain
  | cents
  | times100

/-- Application of a scale conversion. -/
def applyPctConv : PctConv → ℚ → ℚ
  | .plain, v => v
  | .cents, v => v
  | .times100, v => jsMul v 100

/-- The five threshold patterns of `extractPercentage`, in order:
`/(\d+(?:\.\d+)?)\s*%/`, `/(\d+(?:\.\d+)?)\s*percent/i`,
`/(\d+(?:\.\d+)?)\s*cents?/i`, `/0\.(\d+)/`, `/\.(\d+)/`. -/
def pctPatterns : List (Bool × Rx × PctConv) :=
  [(false, rseq [Rx.group 1 numRx, sp0, Rx.cls (CharCls.one '%')], PctConv.plain),
   (true, rseq [Rx.group 1 numRx, sp0, rstr "percent"], PctConv.plain),
   (true, rseq [Rx.group 1 numRx, sp0, rstr "cent", optS], PctConv.cents),
   (false, rseq [Rx.cls (CharCls.one '0'), Rx.cls (CharCls.one '.'),
     Rx.group 1 digitsRx], PctConv.times100),
   (false, rseq [Rx.cls (CharCls.one '.'), Rx.group 1 digitsRx], PctConv.plain)]

/-- The loop of `extractPercentage` over its patterns. -/
def extractPercentageGo : List (Bool × Rx × PctConv) → String → Option ℚ
  | [], _ => none
  | (ci, rx, conv) :: rest, text =>
    match rxMatchCaps ci rx text with
    | some caps =>
      match getCap caps 1 with
      | some m1 => some (applyPctConv conv (parseDecimalChars m1))
      | none => none
    | none => extractPercentageGo rest text

/-- Threshold extraction (`extractPercentage`): first matching pattern wins,
with its conversion. -/
def extractPercentage (text : String) : Option ℚ := extractPercentageGo pctPatterns text

/-- The `Partial<AlertConfig>` an extractor yields: a threshold, a possibly
undetermined direction, and an outcome label. -/
structure ParsedPartial where
  threshold : ℚ
  direction : Option Direction
  outcome : String

/-- Extractor of patterns 1 and 2: threshold from `m[3]`, direction detected
on `m[2]`, outcome detected on `m[1]`. -/
def extractTDO (caps : List (Nat × List Char)) : Option ParsedPartial :=
  match getCap caps 1, getCap caps 2, getCap caps 3 with
  | some m1, some m2, some m3 =>
    some ⟨parseDecimalChars m3, detectDirection (String.mk m2), detectOutcome (String.mk m1)⟩
  | _, _, _ => none

/-- Extractor of pattern 3: direction from the comparison sign `m[2]`. -/
def extractCmp (caps : List (Nat × List Char)) : Option ParsedPartial :=
  match getCap caps 1, getCap caps 2, getCap caps 3 with
  | some m1, some m2, some m3 =>
    some ⟨parseDecimalChars m3,
      some (if m2 == ['>'] then Direction.above else Direction.below),
      detectOutcome (String.mk m1)⟩
  | _, _, _ => none

/-- Extractor of pattern 4: direction fixed to `above`. -/
def extractHits (caps : List (Nat × List Char)) : Option ParsedPartial :=
  match getCap caps 1, getCap caps 3 with
  | some m1, some m3 =>
    some ⟨parseDecimalChars m3, some Direction.above, detectOutcome (String.mk m1)⟩
  | _, _ => none

/-- The ordered pattern/extractor table of `parseAlertRequest`. -/
def parsePatterns : List (Bool × Rx × (List (Nat × List Char) → Option ParsedPartial)) :=
  [(true, pat1, extractTDO), (true, pat2, extractTDO),
   (false, pat3, extractCmp), (true, pat4, extractHits)]

/-- The pattern loop of `parseAlertRequest`: on a regex match whose extractor
yields a determinate direction, return; otherwise try the next pattern (the
threshold capture of every pattern is a mandatory group, so
`parsed.threshold !== undefined` always holds on a match). -/
def parseAlertRequestGo :
    List (Bool × Rx × (List (Nat × List Char) → Option ParsedPartial)) → String →
    Option (ℚ × Direction × String)
  | [], _ => none
  | (ci, rx, ex) :: rest, request =>
    match rxMatchCaps ci rx request with
    | some caps =>
      match ex caps with
      | some p =>
        match p.direction with
        | some d => some (p.threshold, d, p.outcome)
        | none => parseAlertRequestGo rest request
      | none => parseAlertRequestGo rest request
    | none => parseAlertRequestGo rest request

/-- The condition parser (`parseAlertRequest`): the pattern cascade first; on
failure the fallback extracts a threshold and a direction independently from
the whole request and succeeds only when both are found. (In the source the
structured branch reads `outcome: parsed.outcome || 'Yes'`; `detectOutcome`
only returns the non-empty strings `"Yes"`/`"No"`, so the default never
applies.) -/
def parseAlertRequest (request : String) (notifyUrl : String) : Option AlertConfig :=
  match parseAlertRequestGo parsePatterns request with
  | some (t, d, o) =>
    some { marketId := "", outcome := o, threshold := t, direction := d, notifyUrl := notifyUrl }
  | none =>
    match extractPercentage request, detectDirection request with
    | some pct, some dir =>
      some { marketId := "", outcome := detectOutcome request, threshold := pct,
             direction := dir, notifyUrl := notifyUrl }
    | _, _ => none

/-- The conjunction split of `parseMultiConditionAlert`. -/
def splitConj (text : String) : List String := jsSplit true conjRx text

/-- Multi-condition parsing (`parseMultiConditionAlert`): split on the
conjunction delimiters, parse each trimmed part, keep the successes in
order. -/
def parseMultiConditionAlert (request notifyUrl : String) : List AlertConfig :=
  (splitConj request).filterMap (fun part => parseAlertRequest (jsTrim part) notifyUrl)

/-! ### String-scan lemmas for outcome detection -/

theorem startsWithChars_iff (l p : List Char) : startsWithChars l p = true ↔ p <+: l := by
  induction p generalizing l with
  | nil => simp [startsWithChars]
  | cons n ns ih =>
    cases l with
    | nil => simp [startsWithChars]
    | cons h hs =>
      simp only [startsWithChars, Bool.and_eq_true, beq_iff_eq, ih, List.cons_prefix_cons]
      exact and_congr_left (fun _ => eq_comm)

theorem containsChars_iff (l p : List Char) : containsChars l p = true ↔ p <:+: l := by
  induction l with
  | nil =>
    cases p <;> simp [containsChars]
  | cons h t ih =>
    simp only [containsChars, Bool.or_eq_true, startsWithChars_iff, ih, List.infix_cons_iff]

theorem startsWithCI_lower (s p : List Char) (h : startsWithCI s p = true) :
    lowerList p <+: lowerList s := by
  induction p generalizing s with
  | nil => simp [lowerList]
  | cons n ns ih =>
    cases s with
    | nil => simp [startsWithCI] at h
    | cons c cs =>
      simp only [startsWithCI, Bool.and_eq_true, beq_iff_eq] at h
      simp only [lowerList, List.map_cons]
      exact List.cons_prefix_cons.mpr ⟨h.1.symm, ih cs h.2⟩

theorem explicitNoAlt_contains (prev : Option Char) (s : List Char)
    (h : explicitNoAlt prev s = true) : ['n', 'o'] <:+: lowerList s := by
  rw [explicitNoAlt] at h
  simp only [Bool.and_eq_true, Bool.or_eq_true] at h
  rcases h.2 with ((h1 | h1) | h1) | ⟨h1, _⟩
  · exact List.IsInfix.trans (by decide) (startsWithCI_lower _ _ h1).isInfix
  · exact List.IsInfix.trans (by decide) (startsWithCI_lower _ _ h1).isInfix
  · exact List.IsInfix.trans (by decide) (startsWithCI_lower _ _ h1).isInfix
  · exact (startsWithCI_lower _ _ h1).isInfix

theorem explicitNoAlt_nil (prev : Option Char) : explicitNoAlt prev [] = false := by
  rw [explicitNoAlt,
    show startsWithCI [] ("no outcome".data) = false from rfl,
    show startsWithCI [] ("\"no\"".data) = false from rfl,
    show startsWithCI [] ((apos ++ "no" ++ apos).data) = false from rfl,
    show startsWithCI [] ("no".data) = false from rfl]
  simp

theorem explicitNoScan_contains (prev : Option Char) (l : List Char)
    (h : explicitNoScan prev l = true) : ['n', 'o'] <:+: lowerList l := by
  induction l generalizing prev with
  | nil => rw [explicitNoScan, explicitNoAlt_nil] at h; exact absurd h (by simp)
  | cons c t ih =>
    simp only [explicitNoScan, Bool.or_eq_true] at h
    rcases h with h | h
    · exact explicitNoAlt_contains _ _ h
    · exact (ih (some c) h).trans (List.suffix_cons c.toLower (lowerList t)).isInfix

/-- An explicit negative-label match makes the lowercased text contain the
substring `no`, so the first negative-sentiment cue fires as well. -/
theorem explicit_implies_cue (text : String)
    (he : explicitNoScan none text.data = true) :
    NO_KEYWORDS.any (fun kw => jsIncludes (jsToLower text) kw) = true := by
  have hc : containsChars (lowerList text.data) ['n', 'o'] = true :=
    (containsChars_iff _ _).mpr (explicitNoScan_contains none text.data he)
  refine List.any_eq_true.mpr ⟨"no", by simp [NO_KEYWORDS, apos], ?_⟩
  simpa [jsIncludes, jsToLower] using hc

/-- Collapse of `detectOutcome`: the explicit-label branch never decides more
than the cue vocabulary, so the result is `No` exactly when some negative cue
occurs in the lowercased text. -/
theorem detectOutcome_no_iff (text : String) :
    detectOutcome text = "No" ↔
      NO_KEYWORDS.any (fun kw => jsIncludes (jsToLower text) kw) = true := by
  constructor
  · intro h
    by_cases he : explicitNoScan none text.data = true
    · exact explicit_implies_cue text he
    · by_cases hany : NO_KEYWORDS.any (fun kw => jsIncludes (jsToLower text) kw) = true
      · exact hany
      · rw [detectOutcome] at h
        simp [he, hany] at h
  · intro h
    rw [detectOutcome]
    by_cases he : explicitNoScan none text.data = true
    · simp [he]
    · simp [he, h]

/-! ### C9 — outcome-side detection -/

/-- C9: `detectOutcome` returns the negative label exactly when a negative
cue (or the explicit negative-label mention, which always contains one)
occurs in the text; an explicit mention yields `No`; with no negative cue the
result is the positive label `Yes`, in particular in the presence of
positive-sentiment vocabulary, which is never consulted. -/
theorem C9_outcome_detection :
    (∀ text : String, detectOutcome text = "No" ↔
        NO_KEYWORDS.any (fun kw => jsIncludes (jsToLower text) kw) = true) ∧
    (∀ text : String, explicitNoScan none text.data = true → detectOutcome text = "No") ∧
    (∀ text : String,
        NO_KEYWORDS.any (fun kw => jsIncludes (jsToLower text) kw) = false →
        detectOutcome text = "Yes") ∧
    detectOutcome "Trump will pass" = "Yes" ∧
    detectOutcome "watch the \"No\" side" = "No" := by
  refine ⟨detectOutcome_no_iff, ?_, ?_, by decide, by decide⟩
  · intro text he
    rw [detectOutcome]
    simp [he]
  · intro text h
    rw [detectOutcome]
    have he : explicitNoScan none text.data = false := by
      by_cases hx : explicitNoScan none text.data = true
      · rw [explicit_implies_cue text hx] at h
        exact absurd h (by simp)
      · simpa using hx
    simp [he, h]

/-- C9 witness: the explicit-mention branch and the no-cue default applied at
concrete fragments. -/
theorem C9_outcome_detection_witness :
    detectOutcome "the \"no\" option" = "No" ∧ detectOutcome "Biden" = "Yes" :=
  ⟨C9_outcome_detection.2.1 "the \"no\" option" (by decide),
   C9_outcome_detection.2.2.1 "Biden" (by decide)⟩

/-! ### C3 — threshold format scale (code bug on decimals) -/

/-- C3: the percent, `percent` and `cents` formats all yield threshold 60 on
the 0–100 scale, but the decimal format `0.60` does not: the pattern
`/0\.(\d+)/` captures only the fractional digits (`"60"`), and the code then
multiplies the captured value by 100, yielding 6000 — contradicting its own
comment `0.60 = 60%`. -/
theorem C3_threshold_formats :
    parseAlertRequest "Trump falls below 60%" "u"
      = some { marketId := "", outcome := "Yes", threshold := 60,
               direction := Direction.below, notifyUrl := "u" } ∧
    parseAlertRequest "Trump falls below 60 percent" "u"
      = some { marketId := "", outcome := "Yes", threshold := 60,
               direction := Direction.below, notifyUrl := "u" } ∧
    parseAlertRequest "Trump falls below 60 cents" "u"
      = some { marketId := "", outcome := "Yes", threshold := 60,
               direction := Direction.below, notifyUrl := "u" } ∧
    parseAlertRequest "Trump falls below 0.60" "u"
      = some { marketId := "", outcome := "Yes", threshold := 6000,
               direction := Direction.below, notifyUrl := "u" } ∧
    extractPercentage "0.60" = some 6000 := by
  decide

/-! ### C7 — multi-condition parsing -/

/-- C7: `parseMultiConditionAlert` splits on the conjunction delimiters and
returns exactly the successfully parsed trimmed segments in order, silently
dropping failures; the claimed example yields exactly the two conditions
`{above, 60}` and `{below, 40}`; a single delimiter-free (trimmed) segment
behaves as `parseAlertRequest` called directly. -/
theorem C7_parseMany :
    parseMultiConditionAlert "Trump > 60% AND Biden < 40%" "u"
      = [{ marketId := "", outcome := "Yes", threshold := 60,
           direction := Direction.above, notifyUrl := "u" },
         { marketId := "", outcome := "Yes", threshold := 40,
           direction := Direction.below, notifyUrl := "u" }] ∧
    (∀ text url : String,
      parseMultiConditionAlert text url
        = (splitConj text).filterMap (fun part => parseAlertRequest (jsTrim part) url)) ∧
    (∀ text url : String, splitConj text = [text] → jsTrim text = text →
      parseMultiConditionAlert text url = (parseAlertRequest text url).toList) ∧
    parseMultiConditionAlert "Trump > 60% AND the weather today" "u"
      = [{ marketId := "", outcome := "Yes", threshold := 60,
           direction := Direction.above, notifyUrl := "u" }] := by
  refine ⟨by decide, fun text url => rfl, ?_, by decide⟩
  intro text url hsplit htrim
  rw [parseMultiConditionAlert, hsplit]
  simp only [List.filterMap_cons, List.filterMap_nil, htrim]
  cases parseAlertRequest text url <;> rfl

/-- C7 witness: a delimiter-free request goes through `parseAlertRequest`
unchanged. -/
theorem C7_parseMany_witness :
    parseMultiConditionAlert "Trump hits 60" "u"
      = (parseAlertRequest "Trump hits 60" "u").toList :=
  C7_parseMany.2.2.1 "Trump hits 60" "u" (by decide) (by decide)

end Spec
